import Mathlib

/-!
Verification development for the battery_manager core of kostal-tibber-25c.

This file gives a shallow embedding, over exact rationals, of

* `TibberOptimizer.plan_battery_schedule_rolling`
  (src/battery_manager/core/tibber_optimizer.py, steps 3 to 5, together with
  the step 1 forecast-array construction), and
* the `ConsumptionLearner` store operations `get_average_consumption`,
  `get_hourly_profile` and `import_detailed_history`
  (src/battery_manager/core/consumption_learner.py),

and proves the testable properties stated in spec.md about them.
Python floats are modelled as rationals, Python lists of per-hour floats as
functions from hour indices, and the SQLite sample table as a list of rows.
-/

set_option maxRecDepth 20000

/-- One entry of the `charging_windows` list produced by the planner
(the human-readable `reason` string is omitted). -/
structure ChargeWindow where
  hour : ℕ
  charge_kwh : ℚ
  price : ℚ
deriving Repr, DecidableEq

/-- The inputs of `plan_battery_schedule_rolling` after step 1/2: battery
parameters from the config, the current SOC, the lookahead window length and
the three per-hour forecast arrays (consumption, PV, price), given as
functions of the rolling hour index. -/
structure PlanInput where
  battery_capacity : ℚ
  min_soc : ℤ
  max_soc : ℤ
  max_charge_power : ℚ
  current_soc : ℚ
  lookahead_hours : ℕ
  cons : ℕ → ℚ
  pv : ℕ → ℚ
  price : ℕ → ℚ

/-- The dict returned by `plan_battery_schedule_rolling` (timestamps omitted). -/
structure RollingPlan where
  hourly_soc : List ℚ
  hourly_charging : List ℚ
  hourly_pv : List ℚ
  hourly_consumption : List ℚ
  hourly_prices : List ℚ
  charging_windows : List ChargeWindow
  min_soc_reached : ℚ
  total_charging_kwh : ℚ
deriving Repr, DecidableEq

/-- The floor `min_kwh = (min_soc / 100) * battery_capacity`. -/
def minKwh (P : PlanInput) : ℚ := ((P.min_soc : ℚ) / 100) * P.battery_capacity

/-- The cap `max_kwh = (max_soc / 100) * battery_capacity`. -/
def maxKwh (P : PlanInput) : ℚ := ((P.max_soc : ℚ) / 100) * P.battery_capacity

/-- The start value `soc_kwh = (current_soc / 100) * battery_capacity`. -/
def csKwh (P : PlanInput) : ℚ := (P.current_soc / 100) * P.battery_capacity

/-- One simulation step of the SOC loops (steps 3 and 5 of the planner):
add the net energy of the previous hour, cap at `max_kwh` only when the net
energy is positive, and always floor at `min_kwh`. -/
def socStep (minK maxK soc net : ℚ) : ℚ :=
  let s := soc + net
  let s2 := if 0 < net then min maxK s else s
  max minK s2

/-- The SOC (kWh) at the start of rolling hour `h`, obtained by iterating
`socStep` from a start value with per-hour net energies `net`. -/
def simKwh (minK maxK : ℚ) (start : ℚ) (net : ℕ → ℚ) : ℕ → ℚ
  | 0 => start
  | h + 1 => socStep minK maxK (simKwh minK maxK start net h) (net h)

/-- Baseline SOC simulation in kWh (step 3: no grid charging). -/
def baselineKwh (P : PlanInput) : ℕ → ℚ :=
  simKwh (minKwh P) (maxKwh P) (csKwh P) (fun h => P.pv h - P.cons h)

/-- The `baseline_soc` array in percent; index 0 is `current_soc` itself. -/
def baselineSoc (P : PlanInput) (h : ℕ) : ℚ :=
  if h = 0 then P.current_soc else baselineKwh P h / P.battery_capacity * 100

/-- Hours whose baseline SOC is at or below `min_soc + 5` (the deficit hours
of step 3; only the hour numbers are needed downstream). -/
def deficitHours (P : PlanInput) : List ℕ :=
  (List.range P.lookahead_hours).filter fun h => baselineSoc P h ≤ (P.min_soc : ℚ) + 5

/-- The echoed list of hourly prices. -/
def pricesList (P : PlanInput) : List ℚ := (List.range P.lookahead_hours).map P.price

/-- The mean `avg_price = sum(hourly_prices) / len(hourly_prices)`. -/
def avgPrice (P : PlanInput) : ℚ := (pricesList P).sum / (P.lookahead_hours : ℚ)

/-- The ascending sort of the hourly prices. -/
def sortedPrices (P : PlanInput) : List ℚ := (pricesList P).mergeSort (fun a b => a ≤ b)

/-- The cutoff `price_threshold = max(avg_price * 1.05, sorted_prices[int(N * 0.6)])`. -/
def priceThreshold (P : PlanInput) : ℚ :=
  max (avgPrice P * (105 / 100)) ((sortedPrices P).getD (3 * P.lookahead_hours / 5) 0)

/-- The expensive hours: those whose price is at least `price_threshold`. -/
def expensiveHours (P : PlanInput) : List ℕ :=
  (List.range P.lookahead_hours).filter fun h => priceThreshold P ≤ P.price h

/-- Clustering loop for the peak grouping: `cur` is the cluster being grown,
`prev` the hour of the last element added to it; a gap of more than 3 hours
starts a new cluster. -/
def groupPeaksAux (cur : List ℕ) (prev : ℕ) : List ℕ → List (List ℕ)
  | [] => [cur]
  | e :: es =>
      if 3 < (e : ℤ) - (prev : ℤ) then cur :: groupPeaksAux [e] e es
      else groupPeaksAux (cur ++ [e]) e es

/-- Group a list of (ascending) expensive hours into peak clusters. -/
def groupPeaks : List ℕ → List (List ℕ)
  | [] => []
  | e :: es => groupPeaksAux [e] e es

/-- The price peaks of the lookahead window. -/
def peaks (P : PlanInput) : List (List ℕ) := groupPeaks (expensiveHours P)

/-- A candidate charging hour together with its price (one entry of the
Python `available_hours` list). -/
structure Slot where
  hour : ℕ
  price : ℚ
deriving Repr, DecidableEq

/-- Sort candidate hours by ascending price (`available_hours.sort(key=price)`). -/
def sortSlots (l : List Slot) : List Slot := l.mergeSort (fun a b => a.price ≤ b.price)

/-- The mutable planning state of step 4: the per-hour grid charging array
and the accumulated `charging_windows` list. -/
structure ChargeState where
  chg : ℕ → ℚ
  windows : List ChargeWindow

/-- Pointwise update of a per-hour array (`hourly_charging[hour] = c`). -/
def updFn (f : ℕ → ℚ) (a : ℕ) (v : ℚ) : ℕ → ℚ := fun x => if x = a then v else f x

/-- Record one charging decision: set `hourly_charging[hour]` and append a
`charging_windows` entry. -/
def commitCharge (st : ChargeState) (h : ℕ) (c pr : ℚ) : ChargeState :=
  ⟨updFn st.chg h c, st.windows ++ [⟨h, c, pr⟩]⟩

/-- The initial step-4 state: no charging planned. -/
def initChargeState : ChargeState := ⟨fun _ => 0, []⟩

/-- The floor target `target_lowest_kwh = ((min_soc + 15) / 100) * battery_capacity`. -/
def targetLowestKwh (P : PlanInput) : ℚ :=
  (((P.min_soc : ℚ) + 15) / 100) * P.battery_capacity

/-- Cumulative net energy (PV + committed charging - consumption) of the
first `n` rolling hours. -/
def cumEnergy (P : PlanInput) (chg : ℕ → ℚ) (n : ℕ) : ℚ :=
  ((List.range n).map (fun h => P.pv h + chg h - P.cons h)).sum

/-- SOC (kWh) at the start of the JIT window, clamped on both sides. -/
def socAtJit (P : PlanInput) (chg : ℕ → ℚ) (jit : ℕ) : ℚ :=
  max (minKwh P) (min (maxKwh P) (csKwh P + cumEnergy P chg jit))

/-- The first hour in `[searchStart, peakStart)` (intersected with the
lookahead window) whose baseline SOC in kWh is below `target_lowest_kwh`. -/
def jitFound (P : PlanInput) (searchStart peakStart : ℕ) : Option ℕ :=
  (List.range' searchStart (min peakStart P.lookahead_hours - searchStart)).find?
    fun h => baselineSoc P h / 100 * P.battery_capacity < targetLowestKwh P

/-- The start of the JIT window: the found low point (default: 4 hours before
the peak), pulled to at least 3 hours before the peak, but never before
`searchStart`. -/
def jitStart (P : PlanInput) (searchStart peakStart : ℕ) : ℕ :=
  let j0 := (jitFound P searchStart peakStart).getD (max searchStart (peakStart - 4))
  max searchStart (min j0 (peakStart - 3))

/-- Whether hour `h` may receive grid charging: inside the window, not yet
planned and with baseline SOC below `max_soc - 2`. -/
def slotFree (P : PlanInput) (chg : ℕ → ℚ) (h : ℕ) : Prop :=
  h < P.lookahead_hours ∧ chg h = 0 ∧ baselineSoc P h < (P.max_soc : ℚ) - 2

instance (P : PlanInput) (chg : ℕ → ℚ) (h : ℕ) : Decidable (slotFree P chg h) := by
  unfold slotFree; infer_instance

/-- The initial `available_hours` of a peak: free hours of `[jit, peakStart)`. -/
def availInit (P : PlanInput) (chg : ℕ → ℚ) (jit peakStart : ℕ) : List Slot :=
  (List.range' jit (peakStart - jit)).filterMap fun h =>
    if slotFree P chg h then some ⟨h, P.price h⟩ else none

/-- The quantity `energy_during_peak`: the summed positive net deficits of the peak hours. -/
def peakEnergy (P : PlanInput) (peakStart peakEnd : ℕ) : ℚ :=
  ((List.range' peakStart (peakEnd + 1 - peakStart)).map fun h =>
    if h < P.lookahead_hours ∧ 0 < P.cons h - P.pv h then P.cons h - P.pv h else 0).sum

/-- Tentatively allocate `rem` kWh into the candidate slots in list order,
capping each hour at `max_charge_power`; returns the per-hour allocation and
the unallocated remainder. -/
def allocTemp (maxp : ℚ) : List Slot → ℚ → (ℕ → ℚ) → (ℕ → ℚ) × ℚ
  | [], rem, acc => (acc, rem)
  | s :: ss, rem, acc =>
      if rem ≤ 0 then (acc, rem)
      else allocTemp maxp ss (rem - min rem maxp) (updFn acc s.hour (min rem maxp))

/-- Simulation core of the iterative refinement: walk the listed hours,
apply committed plus tentative charging, clamp on both sides, and track the
lowest SOC together with the first hour at which it is reached. -/
def simLowestGo (P : PlanInput) (chg temp : ℕ → ℚ) :
    List ℕ → ℚ × ℚ × ℕ → ℚ × ℚ × ℕ
  | [], st => st
  | h :: hs, (sim, lowest, lowHour) =>
      let s := max (minKwh P) (min (maxKwh P)
        (sim + (P.pv h + chg h + temp h - P.cons h)))
      if s < lowest then simLowestGo P chg temp hs (s, s, h)
      else simLowestGo P chg temp hs (s, lowest, lowHour)

/-- Simulate from the JIT start through the peak end and return the lowest
SOC (kWh) reached and the hour at which it was first reached. -/
def simLowest (P : PlanInput) (chg temp : ℕ → ℚ) (jit stop : ℕ) (start : ℚ) : ℚ × ℕ :=
  let r := simLowestGo P chg temp (List.range' jit (stop - jit)) (start, start, jit)
  (r.2.1, r.2.2)

/-- The hours scanned when enlarging a JIT window: `jit - 1` down to
`searchStart` (empty when the window already starts at `searchStart`). -/
def scanHours (searchStart jit : ℕ) : List ℕ :=
  (List.range' searchStart (jit - searchStart)).reverse

/-- Window expansion inside the too-late-window branch: append each free
scanned hour, stopping as soon as the candidate list holds 10 entries;
also reports whether any hour was appended. -/
def expandScanC (P : PlanInput) (chg : ℕ → ℚ) :
    List ℕ → List Slot → Bool → List Slot × Bool
  | [], av, f => (av, f)
  | h :: hs, av, f =>
      let av2 := if slotFree P chg h then av ++ [⟨h, P.price h⟩] else av
      let f2 := if slotFree P chg h then true else f
      if 10 ≤ av2.length then (av2, f2) else expandScanC P chg hs av2 f2

/-- Window expansion of the not-enough-hours branch (first iteration only):
append each free scanned hour and re-sort after every append. -/
def expandScanE (P : PlanInput) (chg : ℕ → ℚ) : List ℕ → List Slot → List Slot
  | [], av => av
  | h :: hs, av =>
      expandScanE P chg hs (if slotFree P chg h then sortSlots (av ++ [⟨h, P.price h⟩]) else av)

/-- The state of the iterative refinement loop of one peak. -/
structure IterState where
  required : ℚ
  avail : List Slot
  jit : ℕ
  socJit : ℚ
  expanded : Bool

/-- The iterative refinement loop (`max_iterations = 5`): tentatively
allocate, simulate, either enlarge a too-late window and restart, stop when
the floor target is met, or grow the charge target by the shortfall plus a
10 percent buffer. `fuel` counts the remaining iterations, `it` the current
iteration index. -/
def iterLoop (P : PlanInput) (chg : ℕ → ℚ) (searchStart peakEnd : ℕ) :
    ℕ → ℕ → IterState → IterState
  | 0, _, st => st
  | fuel + 1, it, st =>
      let ar := allocTemp P.max_charge_power st.avail st.required (fun _ => 0)
      let lw := simLowest P chg ar.1 st.jit (min (peakEnd + 1) P.lookahead_hours) st.socJit
      if lw.2 = st.jit ∧ lw.1 ≤ minKwh P + 1/2 ∧ st.expanded = false then
        let sc := expandScanC P chg (scanHours searchStart st.jit) st.avail false
        if sc.2 then
          let av := sortSlots sc.1
          let jit2 := ((av.map Slot.hour).min?).getD 0
          iterLoop P chg searchStart peakEnd fuel (it + 1)
            ⟨st.required, av, jit2, socAtJit P chg jit2, true⟩
        else st
      else if targetLowestKwh P - 1/10 ≤ lw.1 then st
      else
        let av2 :=
          if 1/10 < ar.2 ∧ it = 0 then expandScanE P chg (scanHours searchStart st.jit) st.avail
          else st.avail
        iterLoop P chg searchStart peakEnd fuel (it + 1)
          ⟨st.required + (targetLowestKwh P - lw.1) * (11/10), av2, st.jit, st.socJit, st.expanded⟩

/-- Final allocation of one peak's charge target into the sorted candidate
hours: stop below a 0.1 kWh remainder, skip hours with strong PV close to
the peak, stop at expensive hours once 60 percent of the target is covered,
otherwise commit `min(remaining, max_charge_power)`. -/
def applySlots (P : PlanInput) (peakStart : ℕ) (initial : ℚ) :
    List Slot → ℚ → ChargeState → ChargeState
  | [], _, st => st
  | s :: ss, rem, st =>
      if rem ≤ 1/10 then st
      else if 5/2 < P.pv s.hour ∧ ((s.hour : ℤ) - (peakStart : ℤ)).natAbs ≤ 4 then
        applySlots P peakStart initial ss rem st
      else if 57/200 < s.price ∧ initial * (3/5) < initial - rem then st
      else
        applySlots P peakStart initial ss (rem - min rem P.max_charge_power)
          (commitCharge st s.hour (min rem P.max_charge_power) s.price)

/-- Plan the charging for one peak cluster. -/
def processPeak (P : PlanInput) (searchStart : ℕ) (peak : List ℕ) (st : ChargeState) :
    ChargeState :=
  let peakStart := peak.headD 0
  let peakEnd := peak.getLastD 0
  let jit := jitStart P searchStart peakStart
  let st0 : IterState :=
    ⟨peakEnergy P peakStart peakEnd * (3/2),
     sortSlots (availInit P st.chg jit peakStart),
     jit, socAtJit P st.chg jit, false⟩
  let fin := iterLoop P st.chg searchStart peakEnd 5 0 st0
  if 1/2 < fin.required ∧ fin.avail ≠ [] then
    applySlots P peakStart fin.required fin.avail fin.required st
  else st

/-- Plan all peaks in order; `searchStart` is 0 for the first peak and one
past the previous peak's last hour afterwards. -/
def processPeaks (P : PlanInput) : List (List ℕ) → ℕ → ChargeState → ChargeState
  | [], _, st => st
  | pk :: rest, searchStart, st =>
      processPeaks P rest (pk.getLastD 0 + 1) (processPeak P searchStart pk st)

/-- The deficit-refill target `(min_soc + 10) / 100 * battery_capacity`. -/
def targetRefillKwh (P : PlanInput) : ℚ :=
  (((P.min_soc : ℚ) + 10) / 100) * P.battery_capacity

/-- Fold of the fallback branch: running cumulative net energy and the
maximal deficit against the refill target seen so far. -/
def fallbackScan (P : PlanInput) : List ℕ → ℚ × ℚ → ℚ × ℚ
  | [], st => st
  | h :: hs, (cum, maxd) =>
      let cum2 := cum + (P.pv h - P.cons h)
      let d := max 0 (targetRefillKwh P - (csKwh P + cum2))
      fallbackScan P hs (cum2, max maxd d)

/-- The minimal energy needed to stay above `min_soc + 10` from the first
deficit hour onwards (no clamping, as in the source). -/
def fallbackRequired (P : PlanInput) (fd : ℕ) : ℚ :=
  (fallbackScan P (List.range' fd (P.lookahead_hours - fd)) (0, 0)).2

/-- Allocation loop of the fallback branch (no skip heuristics; stops at a
zero remainder). -/
def applyFallback (P : PlanInput) : List Slot → ℚ → ChargeState → ChargeState
  | [], _, st => st
  | s :: ss, rem, st =>
      if rem ≤ 0 then st
      else
        applyFallback P ss (rem - min rem P.max_charge_power)
          (commitCharge st s.hour (min rem P.max_charge_power) s.price)

/-- The deficit-only fallback branch: charge the cheapest hours strictly
before the first deficit hour. -/
def fallbackState (P : PlanInput) : ChargeState :=
  let fd := (deficitHours P).headD 0
  applyFallback P (sortSlots ((List.range fd).map fun h => ⟨h, P.price h⟩))
    (fallbackRequired P fd) initChargeState

/-- Step 4 of the planner: multi-peak charging when both peaks and deficits
exist, deficit-only fallback when only deficits exist, otherwise no charging. -/
def step4State (P : PlanInput) : ChargeState :=
  if peaks P ≠ [] ∧ deficitHours P ≠ [] then processPeaks P (peaks P) 0 initChargeState
  else if deficitHours P ≠ [] then fallbackState P
  else initChargeState

/-- Final SOC simulation in kWh (step 5: with the planned grid charging). -/
def finalKwh (P : PlanInput) (chg : ℕ → ℚ) : ℕ → ℚ :=
  simKwh (minKwh P) (maxKwh P) (csKwh P) (fun h => P.pv h + chg h - P.cons h)

/-- The final SOC trajectory in percent; index 0 is `current_soc`. -/
def finalSoc (P : PlanInput) (chg : ℕ → ℚ) (h : ℕ) : ℚ :=
  if h = 0 then P.current_soc else finalKwh P chg h / P.battery_capacity * 100

/-- Minimum of a list of rationals (`min(final_soc)`; 0 for an empty list). -/
def listMin : List ℚ → ℚ
  | [] => 0
  | x :: xs => xs.foldl min x

/-- The rolling planner `plan_battery_schedule_rolling` of
tibber_optimizer.py, as a total function of the step-1/2 forecast inputs:
baseline simulation, deficit and peak detection, per-peak just-in-time
charging with iterative refinement (or the deficit-only fallback), and the
final SOC trajectory. -/
def plan_battery_schedule_rolling (P : PlanInput) : RollingPlan :=
  let st := step4State P
  let soc := (List.range P.lookahead_hours).map (finalSoc P st.chg)
  { hourly_soc := soc
    hourly_charging := (List.range P.lookahead_hours).map st.chg
    hourly_pv := (List.range P.lookahead_hours).map P.pv
    hourly_consumption := (List.range P.lookahead_hours).map P.cons
    hourly_prices := pricesList P
    charging_windows := st.windows
    min_soc_reached := listMin soc
    total_charging_kwh := ((List.range P.lookahead_hours).map st.chg).sum }

/-! ### ConsumptionLearner: the sample store -/

/-- One row of the `hourly_consumption` table: the hour-aligned timestamp is
split into a calendar day index and an hour of day; `createdAt` models the
`created_at` insertion time. -/
structure CSample where
  day : ℤ
  hour : ℕ
  value : ℚ
  isManual : Bool
  createdAt : ℕ
deriving Repr, DecidableEq

/-- The store: the table rows plus the configured `default_fallback`. -/
structure CStore where
  samples : List CSample
  fallback : ℚ
deriving Repr, DecidableEq

/-- Weekday of a calendar day index (0 to 6, as `strftime('%w')` does for
dates in a fixed 7-day cycle). -/
def weekdayOf (d : ℤ) : ℤ := d % 7

/-- The row predicate of a query: same hour of day and, when a target date
is given, the same weekday. -/
def matchesQuery (hour : ℕ) (target : Option ℤ) (s : CSample) : Prop :=
  s.hour = hour ∧ (match target with
    | none => True
    | some d => weekdayOf s.day = weekdayOf d)

instance (hour : ℕ) (target : Option ℤ) (s : CSample) :
    Decidable (matchesQuery hour target s) := by
  unfold matchesQuery; exact match target with | none => by infer_instance | some _ => by infer_instance

/-- The rows matching a query. -/
def matchingSamples (store : CStore) (hour : ℕ) (target : Option ℤ) : List CSample :=
  store.samples.filter fun s => matchesQuery hour target s

/-- The ranking `ORDER BY is_manual ASC, created_at DESC`: `a` ranks at least as high as
`b` (ties keep the earlier row). -/
def betterRow (a b : CSample) : Bool :=
  if a.isManual = b.isManual then decide (b.createdAt ≤ a.createdAt)
  else decide (a.isManual = false)

/-- The `ROW_NUMBER() = 1` row of one partition. -/
def bestRow : List CSample → Option CSample
  | [] => none
  | x :: xs => some (xs.foldl (fun a b => if betterRow a b then a else b) x)

/-- Per-day deduplication: for each calendar day occurring in the list keep
only the best row (learned preferred over imported, then latest
`created_at`). -/
def dedupPerDay (l : List CSample) : List CSample :=
  ((l.map CSample.day).dedup).filterMap fun d => bestRow (l.filter fun s => s.day = d)

/-- Mean of the deduplicated values of a row list. -/
def dedupMean (l : List CSample) : ℚ :=
  ((dedupPerDay l).map CSample.value).sum / ((dedupPerDay l).length : ℚ)

/-- The query `ConsumptionLearner.get_average_consumption`: the deduplicated mean of
the matching rows; the fallback is returned when the query yields no rows or
a falsy (zero) average, mirroring `if result and result[0]:`. -/
def get_average_consumption (store : CStore) (hour : ℕ) (target : Option ℤ) : ℚ :=
  let rows := dedupPerDay (matchingSamples store hour target)
  let avg := (rows.map CSample.value).sum / (rows.length : ℚ)
  if rows.isEmpty ∨ avg = 0 then store.fallback else avg

/-- The spec's reading of `get_average_consumption`: the deduplicated mean
of the matching samples, with the fallback exactly when no sample matches. -/
def average_consumption_spec (store : CStore) (hour : ℕ) (target : Option ℤ) : ℚ :=
  let rows := dedupPerDay (matchingSamples store hour target)
  if rows.isEmpty then store.fallback
  else (rows.map CSample.value).sum / (rows.length : ℚ)

/-- The deduplicated rows feeding hour `h` of the profile query. -/
def hourRows (store : CStore) (target : Option ℤ) (h : ℕ) : List CSample :=
  dedupPerDay (matchingSamples store h target)

/-- The weekday restriction of the profile query (no hour restriction). -/
def matchesWeekday (target : Option ℤ) (s : CSample) : Prop :=
  match target with
  | none => True
  | some d => weekdayOf s.day = weekdayOf d

instance (target : Option ℤ) (s : CSample) : Decidable (matchesWeekday target s) := by
  unfold matchesWeekday
  exact match target with | none => by infer_instance | some _ => by infer_instance

/-- The rows the profile query sees. -/
def profileRows (store : CStore) (target : Option ℤ) : List CSample :=
  store.samples.filter fun s => matchesWeekday target s

/-- The distinct hour groups of the profile query (the keys of the Python
`profile` dict before back-filling). -/
def presentHours (store : CStore) (target : Option ℤ) : List ℕ :=
  ((profileRows store target).map CSample.hour).dedup

/-- The query `ConsumptionLearner.get_hourly_profile`: per-hour deduplicated averages
for the hour groups present; hours without samples receive the mean of the
populated per-hour averages, and if the query returns no rows at all every
hour receives the fallback. -/
def get_hourly_profile (store : CStore) (target : Option ℤ) : ℕ → ℚ :=
  if presentHours store target = [] then fun _ => store.fallback
  else fun h =>
    if h ∈ presentHours store target then dedupMean (matchingSamples store h target)
    else
      ((presentHours store target).map fun h2 => dedupMean (matchingSamples store h2 target)).sum
        / ((presentHours store target).length : ℚ)

/-! ### ConsumptionLearner: import_detailed_history -/

/-- One record of the import batch: a calendar day and its hourly values. -/
structure DayRecord where
  day : ℤ
  hours : List ℚ
deriving Repr, DecidableEq

/-- Import validation of one hourly value: negatives become 0, values above
50 are capped at 50. -/
def clampImport (v : ℚ) : ℚ := if v < 0 then 0 else if 50 < v then 50 else v

/-- The `INSERT OR REPLACE` write, keyed by the hour-aligned timestamp `(day, hour)`. -/
def insertSample (samples : List CSample) (s : CSample) : List CSample :=
  (samples.filter fun t => ¬(t.day = s.day ∧ t.hour = s.hour)) ++ [s]

/-- Insert the 24 clamped hourly values of one accepted day, tagged manual. -/
def importDayHours (day : ℤ) (hours : List ℚ) (t : ℕ) (samples : List CSample) :
    List CSample :=
  (List.range 24).foldl
    (fun acc h => insertSample acc ⟨day, h, clampImport (hours.getD h 0), true, t⟩) samples

/-- The import fold: a day with other than 24 values is skipped whole, an
accepted day inserts its 24 hours and counts them. -/
def importGo (t : ℕ) : List DayRecord → List CSample × ℕ × ℕ → List CSample × ℕ × ℕ
  | [], st => st
  | r :: rs, (samples, imported, skipped) =>
      if r.hours.length = 24 then
        importGo t rs (importDayHours r.day r.hours t samples, imported + 24, skipped)
      else importGo t rs (samples, imported, skipped + 1)

/-- The pruning step `_cleanup_old_data`: drop every row strictly older than the cutoff
timestamp (day, hour of day). -/
def cleanupOldData (cutoff : ℤ × ℕ) (samples : List CSample) : List CSample :=
  samples.filter fun s => ¬(s.day < cutoff.1 ∨ (s.day = cutoff.1 ∧ s.hour < cutoff.2))

/-- The operation `ConsumptionLearner.import_detailed_history`: validate and import a
batch of daily records, run the retention cleanup, and return the updated
store together with `imported_hours` and `skipped_days`. -/
def import_detailed_history (store : CStore) (t : ℕ) (cutoff : ℤ × ℕ)
    (batch : List DayRecord) : CStore × ℕ × ℕ :=
  let r := importGo t batch (store.samples, 0, 0)
  (⟨cleanupOldData cutoff r.1, store.fallback⟩, r.2.1, r.2.2)

/-! ### Planner step 1: building the forecast arrays -/

/-- One Tibber price point, with its `startsAt` already split into a day
index and an hour of day. -/
structure PricePoint where
  day : ℤ
  hour : ℕ
  total : ℚ
deriving Repr, DecidableEq

/-- Resolve the price of a calendar hour: the first matching price point,
else the 0.30 fallback. -/
def priceFor (prices : List PricePoint) (d : ℤ) (h : ℕ) : ℚ :=
  match prices.find? fun p => p.hour = h ∧ p.day = d with
  | some p => p.total
  | none => 3/10

/-- The lookup `pv_forecast_48h.get(idx, 0.0)` guarded by `idx < 48`. -/
def pvLookup (pvFc : List (ℕ × ℚ)) (idx : ℕ) : ℚ :=
  if idx < 48 then ((pvFc.find? fun q => q.1 = idx).map Prod.snd).getD 0 else 0

/-- Step 1 of `plan_battery_schedule_rolling`: for each rolling hour map to
the calendar day and hour of day, query the consumption learner (weekday
conditioned), the 48h PV forecast and the price table. -/
def build_forecast_arrays (store : CStore) (pvFc : List (ℕ × ℚ))
    (prices : List PricePoint) (nowDay : ℤ) (nowHour : ℕ) (N : ℕ) :
    List ℚ × List ℚ × List ℚ :=
  ((List.range N).map fun i =>
      get_average_consumption store ((nowHour + i) % 24)
        (some (nowDay + ((nowHour + i) / 24 : ℕ))),
   (List.range N).map fun i => pvLookup pvFc (nowHour + i),
   (List.range N).map fun i =>
      priceFor prices (nowDay + ((nowHour + i) / 24 : ℕ)) ((nowHour + i) % 24))

/-- Lift a list of per-hour values to the function form used by `PlanInput`
(out-of-window indices read as 0, matching that the planner never reads
them). -/
def hourFn (l : List ℚ) : ℕ → ℚ := fun i => l.getD i 0

/-- The planner applied to concrete forecast lists. -/
def planFromLists (cap : ℚ) (minS maxS : ℤ) (maxp cs : ℚ) (N : ℕ)
    (consL pvL priceL : List ℚ) : RollingPlan :=
  plan_battery_schedule_rolling
    { battery_capacity := cap, min_soc := minS, max_soc := maxS,
      max_charge_power := maxp, current_soc := cs, lookahead_hours := N,
      cons := hourFn consL, pv := hourFn pvL, price := hourFn priceL }

/-! ### Claim-side formulas and concrete inputs -/

/-- The last `charging_windows` entry for hour `h`, or 0 kWh if none: the
value the final `hourly_charging[h]` must carry. -/
def lastCharge (ws : List ChargeWindow) (h : ℕ) : ℚ :=
  (((ws.filter fun w => w.hour = h).getLast?).map ChargeWindow.charge_kwh).getD 0

/-- The conservation step of the spec: the previous SOC percentage adjusted
by `(pv + charging - consumption) / capacity * 100`, upper-clamped to
`max_soc` only for positive net energy, lower-clamped to `min_soc` always. -/
def conservationStep (minS maxS cap prev pvv chgv consv : ℚ) : ℚ :=
  let net := pvv + chgv - consv
  let adj := prev + net / cap * 100
  max minS (if 0 < net then min maxS adj else adj)

/-- Input falsifying C10's distinct-hours and window-total properties:
a single evening peak, a tight just-in-time window whose most expensive
hour stays unfunded mid-iteration, which makes both expansion paths of the
refinement loop append the same early hours twice. -/
def cx10Input : PlanInput :=
  { battery_capacity := 10
    min_soc := 20
    max_soc := 95
    max_charge_power := 1/2
    current_soc := 40
    lookahead_hours := 12
    cons := hourFn [3/100, 3/100, 3/100, 3/100, 136/100, 62/100, 3/100, 3/100,
                    3/10, 3/10, 3/10, 3/10]
    pv := fun _ => 0
    price := hourFn [100/1000, 99/1000, 98/1000, 97/1000, 96/1000, 15/100,
                     14/100, 13/100, 4/10, 4/10, 4/10, 4/10] }

/-- Input falsifying C1's SOC bounds as stated: a battery already above
`max_soc` (current SOC 100, `max_soc` 95). -/
def cx1Input : PlanInput :=
  { battery_capacity := 10
    min_soc := 20
    max_soc := 95
    max_charge_power := 39/10
    current_soc := 100
    lookahead_hours := 1
    cons := fun _ => 0
    pv := fun _ => 0
    price := fun _ => 3/10 }

/-- A benign two-hour input (no deficit, no charging) used by witnesses. -/
def witInput : PlanInput :=
  { battery_capacity := 10
    min_soc := 20
    max_soc := 95
    max_charge_power := 39/10
    current_soc := 50
    lookahead_hours := 2
    cons := fun _ => 0
    pv := fun _ => 0
    price := fun _ => 3/10 }

/-- A store with one matching zero-valued sample (falsifies C5 as stated). -/
def cx5Store : CStore := ⟨[⟨0, 14, 0, true, 0⟩], 1⟩

/-- A store with one matching sample of value 2 (C5 amended witness). -/
def wit5Store : CStore := ⟨[⟨0, 14, 2, true, 0⟩, ⟨1, 14, 100, true, 0⟩], 1⟩

/-- A store with samples at hours 3 and 4 only (days 0 and 7 share a
weekday), leaving the other 22 hours to be back-filled. -/
def wit6Store : CStore :=
  ⟨[⟨0, 3, 2, true, 0⟩, ⟨7, 3, 4, false, 1⟩, ⟨0, 4, 10, true, 0⟩], 1⟩

/-- The import batch of the spec's test vector: one 23-value day, plus one
valid day containing a negative and an over-range value. -/
def wit8BatchShort : List DayRecord := [⟨0, List.replicate 23 1⟩]

/-- A single accepted day whose hour 0 is negative and hour 1 is 60. -/
def wit8Day : DayRecord := ⟨5, [-1, 60] ++ List.replicate 22 1⟩

/-- Invariant of the step-4 planning state: every per-hour charge equals the
last window entry recorded for that hour (0 when there is none), every
charge lies in `[0, max_charge_power]`, and any range prefix of the charge
array sums to at most the total of the recorded window entries. -/
def ChargeInv (maxp : ℚ) (st : ChargeState) : Prop :=
  (∀ h, st.chg h = lastCharge st.windows h) ∧
  (∀ h, 0 ≤ st.chg h ∧ st.chg h ≤ maxp) ∧
  (∀ M, ((List.range M).map st.chg).sum ≤ (st.windows.map ChargeWindow.charge_kwh).sum)

/-- The inter-cluster gap property of the peak grouping: the first hour of
the later cluster is more than 3 hours after the last hour of the earlier
one. -/
def peakGapOk (p q : List ℕ) : Prop :=
  ∀ a b, p.getLast? = some a → q.head? = some b → 3 < (b : ℤ) - (a : ℤ)

/-! ## Helper lemmas -/

theorem getD_map_range (f : ℕ → ℚ) {i n : ℕ} (h : i < n) :
    ((List.range n).map f).getD i 0 = f i := by
  simp [List.getD_eq_getElem?_getD, List.getElem?_map, List.getElem?_range h]

theorem socStep_bounds {minK maxK soc net : ℚ} (h1 : minK ≤ maxK) (h2 : soc ≤ maxK) :
    minK ≤ socStep minK maxK soc net ∧ socStep minK maxK soc net ≤ maxK := by
  refine ⟨le_max_left _ _, ?_⟩
  unfold socStep
  by_cases hp : 0 < net
  · simp only [hp, if_pos]
    exact max_le h1 (min_le_left _ _)
  · simp only [hp, if_neg, if_false]
    refine max_le h1 ?_
    have : net ≤ 0 := le_of_not_lt hp
    linarith

theorem simKwh_bounds {minK maxK start : ℚ} (net : ℕ → ℚ) (h1 : minK ≤ maxK)
    (h0 : minK ≤ start) (h0' : start ≤ maxK) :
    ∀ h, minK ≤ simKwh minK maxK start net h ∧ simKwh minK maxK start net h ≤ maxK := by
  intro h
  induction h with
  | zero => exact ⟨h0, h0'⟩
  | succ n ih => exact socStep_bounds h1 ih.2

theorem pct_le_pct {cap a b : ℚ} (hc : 0 < cap) (h : a ≤ b) :
    a / cap * 100 ≤ b / cap * 100 := by gcongr

theorem pct_kwh_id {cap x : ℚ} (hc : cap ≠ 0) : (x / 100 * cap) / cap * 100 = x := by
  field_simp
  ring

/-! ## C1: SOC bounds -/

/-- C1 (counterexample): with battery parameters satisfying the claim's
constraints (`0 <= min_soc < max_soc <= 100`) and a `current_soc` of 100 in
`[0, 100]` but above `max_soc = 95`, the reported trajectory starts at
`hourly_soc[0] = current_soc = 100`, exceeding `max_soc_pct` by 5 — more
than any small rounding tolerance (shown here against ε = 1). -/
theorem soc_bounds_counterexample :
    (0 : ℤ) ≤ cx1Input.min_soc ∧ cx1Input.min_soc < cx1Input.max_soc ∧
    cx1Input.max_soc ≤ 100 ∧ (0 : ℚ) ≤ cx1Input.current_soc ∧
    cx1Input.current_soc ≤ 100 ∧
    (cx1Input.max_soc : ℚ) + 1 < (plan_battery_schedule_rolling cx1Input).hourly_soc.getD 0 0 := by
  with_unfolding_all decide

/-- C1 (amended): provided additionally that the starting SOC itself lies
inside the configured band (`min_soc <= current_soc <= max_soc`), every
entry of the reported SOC trajectory satisfies
`min_soc <= hourly_soc[i] <= max_soc` — exactly, with no tolerance needed in
exact arithmetic. Without that extra hypothesis, `hourly_soc[0]`, which the
planner sets to `current_soc` verbatim, can violate either bound. -/
theorem soc_bounds_amended (P : PlanInput)
    (hcap : 0 < P.battery_capacity)
    (hm0 : (0 : ℤ) ≤ P.min_soc) (hmm : P.min_soc < P.max_soc) (hM : P.max_soc ≤ 100)
    (hcs0 : (0 : ℚ) ≤ P.current_soc) (hcs100 : P.current_soc ≤ 100)
    (hcsm : (P.min_soc : ℚ) ≤ P.current_soc) (hcsM : P.current_soc ≤ (P.max_soc : ℚ)) :
    ∀ i < P.lookahead_hours,
      (P.min_soc : ℚ) ≤ (plan_battery_schedule_rolling P).hourly_soc.getD i 0 ∧
      (plan_battery_schedule_rolling P).hourly_soc.getD i 0 ≤ (P.max_soc : ℚ) := by
  intro i hi
  have hmmQ : (P.min_soc : ℚ) ≤ (P.max_soc : ℚ) := by exact_mod_cast le_of_lt hmm
  have hsoc : (plan_battery_schedule_rolling P).hourly_soc.getD i 0
      = finalSoc P (step4State P).chg i := by
    show ((List.range P.lookahead_hours).map (finalSoc P (step4State P).chg)).getD i 0 = _
    exact getD_map_range _ hi
  rw [hsoc]
  rcases Nat.eq_zero_or_pos i with h0 | hpos
  · subst h0
    simpa [finalSoc] using ⟨hcsm, hcsM⟩
  · have hK : minKwh P ≤ maxKwh P := by
      unfold minKwh maxKwh
      gcongr
    have hs0 : minKwh P ≤ csKwh P ∧ csKwh P ≤ maxKwh P := by
      constructor
      · unfold minKwh csKwh; gcongr
      · unfold csKwh maxKwh; gcongr
    have hb := @simKwh_bounds (minKwh P) (maxKwh P) (csKwh P)
      (fun h => P.pv h + (step4State P).chg h - P.cons h) hK hs0.1 hs0.2 i
    have hne : i ≠ 0 := Nat.pos_iff_ne_zero.mp hpos
    unfold finalSoc
    rw [if_neg hne]
    constructor
    · have := pct_le_pct hcap hb.1
      calc (P.min_soc : ℚ) = minKwh P / P.battery_capacity * 100 := by
            unfold minKwh; rw [pct_kwh_id (ne_of_gt hcap)]
        _ ≤ _ := by
            have h2 := pct_le_pct hcap (hb.1 : minKwh P ≤ finalKwh P (step4State P).chg i)
            exact h2
    · calc finalKwh P (step4State P).chg i / P.battery_capacity * 100
          ≤ maxKwh P / P.battery_capacity * 100 := pct_le_pct hcap hb.2
        _ = (P.max_soc : ℚ) := by unfold maxKwh; rw [pct_kwh_id (ne_of_gt hcap)]

/-- Witness for C1 (amended) at a concrete benign input. -/
theorem soc_bounds_amended_witness :
    (0 : ℚ) < witInput.battery_capacity ∧
    ((witInput.min_soc : ℚ) ≤ (plan_battery_schedule_rolling witInput).hourly_soc.getD 1 0 ∧
      (plan_battery_schedule_rolling witInput).hourly_soc.getD 1 0 ≤ (witInput.max_soc : ℚ)) :=
  ⟨by norm_num [witInput],
   soc_bounds_amended witInput (by norm_num [witInput]) (by norm_num [witInput])
     (by norm_num [witInput]) (by norm_num [witInput]) (by norm_num [witInput])
     (by norm_num [witInput]) (by norm_num [witInput]) (by norm_num [witInput])
     1 (by norm_num [witInput])⟩

/-! ## C4: no-deficit idempotence -/

/-- C4 (confirmed): if the baseline (no-grid-charging) SOC trajectory stays
strictly above `min_soc + 5` at every hour of the window, the plan carries
no charging windows and an all-zero `hourly_charging`. -/
theorem no_deficit_idempotence (P : PlanInput)
    (h : ∀ i < P.lookahead_hours, (P.min_soc : ℚ) + 5 < baselineSoc P i) :
    (plan_battery_schedule_rolling P).charging_windows = [] ∧
    (plan_battery_schedule_rolling P).hourly_charging
      = List.replicate P.lookahead_hours 0 := by
  have hdef : deficitHours P = [] := by
    unfold deficitHours
    rw [List.filter_eq_nil_iff]
    intro a ha
    have := h a (List.mem_range.mp ha)
    simpa using not_le.mpr this
  have hst : step4State P = initChargeState := by
    unfold step4State
    simp [hdef]
  constructor
  · show (step4State P).windows = []
    rw [hst]; rfl
  · show (List.range P.lookahead_hours).map (step4State P).chg = _
    rw [hst]
    show (List.range P.lookahead_hours).map (fun _ => (0 : ℚ)) = _
    rw [List.map_const']
    simp

/-- Witness for C4 at a concrete input whose baseline never dips. -/
theorem no_deficit_idempotence_witness :
    (∀ i < witInput.lookahead_hours, (witInput.min_soc : ℚ) + 5 < baselineSoc witInput i) ∧
    (plan_battery_schedule_rolling witInput).charging_windows = [] ∧
    (plan_battery_schedule_rolling witInput).hourly_charging
      = List.replicate witInput.lookahead_hours 0 :=
  ⟨by with_unfolding_all decide,
   no_deficit_idempotence witInput (by with_unfolding_all decide)⟩

/-! ## C3: conservation / reconstructibility -/

theorem pct_max {cap a b : ℚ} (hc : 0 < cap) :
    max a b / cap * 100 = max (a / cap * 100) (b / cap * 100) := by
  rcases le_total a b with h | h
  · rw [max_eq_right h, max_eq_right (pct_le_pct hc h)]
  · rw [max_eq_left h, max_eq_left (pct_le_pct hc h)]

theorem pct_min {cap a b : ℚ} (hc : 0 < cap) :
    min a b / cap * 100 = min (a / cap * 100) (b / cap * 100) := by
  rcases le_total a b with h | h
  · rw [min_eq_left h, min_eq_left (pct_le_pct hc h)]
  · rw [min_eq_right h, min_eq_right (pct_le_pct hc h)]

theorem minKwh_pct (P : PlanInput) (hc : P.battery_capacity ≠ 0) :
    minKwh P / P.battery_capacity * 100 = (P.min_soc : ℚ) := by
  unfold minKwh; exact pct_kwh_id hc

theorem maxKwh_pct (P : PlanInput) (hc : P.battery_capacity ≠ 0) :
    maxKwh P / P.battery_capacity * 100 = (P.max_soc : ℚ) := by
  unfold maxKwh; exact pct_kwh_id hc

theorem socStep_pct (P : PlanInput) (hcap : 0 < P.battery_capacity) (K net : ℚ) :
    socStep (minKwh P) (maxKwh P) K net / P.battery_capacity * 100
      = max (P.min_soc : ℚ)
          (if 0 < net then
            min (P.max_soc : ℚ) ((K + net) / P.battery_capacity * 100)
           else (K + net) / P.battery_capacity * 100) := by
  unfold socStep
  by_cases hp : 0 < net
  · simp only [hp, if_pos]
    rw [pct_max hcap, pct_min hcap, minKwh_pct P (ne_of_gt hcap), maxKwh_pct P (ne_of_gt hcap)]
  · simp only [hp, if_false]
    rw [pct_max hcap, minKwh_pct P (ne_of_gt hcap)]

theorem finalSoc_pct (P : PlanInput) (chg : ℕ → ℚ) (hcap : 0 < P.battery_capacity) (j : ℕ) :
    finalSoc P chg j = finalKwh P chg j / P.battery_capacity * 100 := by
  rcases Nat.eq_zero_or_pos j with h0 | hp
  · subst h0
    show P.current_soc = csKwh P / P.battery_capacity * 100
    unfold csKwh
    rw [pct_kwh_id (ne_of_gt hcap)]
  · unfold finalSoc
    rw [if_neg (Nat.pos_iff_ne_zero.mp hp)]

/-- C3 (confirmed): for every index `i > 0` of the plan, `hourly_soc[i]`
equals `hourly_soc[i-1]` adjusted by
`(pv[i-1] + hourly_charging[i-1] - consumption[i-1]) / capacity * 100`,
upper-clamped to `max_soc` only when that net energy is positive and always
lower-clamped to `min_soc`, with all quantities read off the plan's own
echoed arrays — the trajectory is reconstructible from the plan alone. -/
theorem conservation_reconstruction (P : PlanInput) (hcap : 0 < P.battery_capacity) :
    ∀ i, 0 < i → i < P.lookahead_hours →
      (plan_battery_schedule_rolling P).hourly_soc.getD i 0
        = conservationStep (P.min_soc : ℚ) (P.max_soc : ℚ) P.battery_capacity
            ((plan_battery_schedule_rolling P).hourly_soc.getD (i - 1) 0)
            ((plan_battery_schedule_rolling P).hourly_pv.getD (i - 1) 0)
            ((plan_battery_schedule_rolling P).hourly_charging.getD (i - 1) 0)
            ((plan_battery_schedule_rolling P).hourly_consumption.getD (i - 1) 0) := by
  intro i hpos hi
  obtain ⟨j, rfl⟩ : ∃ j, i = j + 1 := ⟨i - 1, (Nat.succ_pred_eq_of_pos hpos).symm⟩
  have hj : j < P.lookahead_hours := Nat.lt_of_succ_lt hi
  set chg := (step4State P).chg with hchg
  have e1 : (plan_battery_schedule_rolling P).hourly_soc.getD (j + 1) 0
      = finalSoc P chg (j + 1) := by
    show ((List.range P.lookahead_hours).map (finalSoc P chg)).getD (j + 1) 0 = _
    exact getD_map_range _ hi
  have e2 : (plan_battery_schedule_rolling P).hourly_soc.getD (j + 1 - 1) 0
      = finalSoc P chg j := by
    show ((List.range P.lookahead_hours).map (finalSoc P chg)).getD j 0 = _
    exact getD_map_range _ hj
  have e3 : (plan_battery_schedule_rolling P).hourly_pv.getD (j + 1 - 1) 0 = P.pv j := by
    show ((List.range P.lookahead_hours).map P.pv).getD j 0 = _
    exact getD_map_range _ hj
  have e4 : (plan_battery_schedule_rolling P).hourly_charging.getD (j + 1 - 1) 0 = chg j := by
    show ((List.range P.lookahead_hours).map chg).getD j 0 = _
    exact getD_map_range _ hj
  have e5 : (plan_battery_schedule_rolling P).hourly_consumption.getD (j + 1 - 1) 0
      = P.cons j := by
    show ((List.range P.lookahead_hours).map P.cons).getD j 0 = _
    exact getD_map_range _ hj
  rw [e1, e2, e3, e4, e5]
  have estep : finalSoc P chg (j + 1)
      = socStep (minKwh P) (maxKwh P) (finalKwh P chg j)
          (P.pv j + chg j - P.cons j) / P.battery_capacity * 100 := by
    rw [finalSoc_pct P chg hcap]
    rfl
  rw [estep, socStep_pct P hcap]
  unfold conservationStep
  rw [finalSoc_pct P chg hcap j]
  have hsplit : (finalKwh P chg j + (P.pv j + chg j - P.cons j)) / P.battery_capacity * 100
      = finalKwh P chg j / P.battery_capacity * 100
        + (P.pv j + chg j - P.cons j) / P.battery_capacity * 100 := by
    field_simp
    ring
  rw [hsplit]

/-- Witness for C3 at a concrete input (index 1 of the two-hour plan). -/
theorem conservation_reconstruction_witness :
    (0 : ℚ) < witInput.battery_capacity ∧
    (plan_battery_schedule_rolling witInput).hourly_soc.getD 1 0
      = conservationStep (witInput.min_soc : ℚ) (witInput.max_soc : ℚ)
          witInput.battery_capacity
          ((plan_battery_schedule_rolling witInput).hourly_soc.getD 0 0)
          ((plan_battery_schedule_rolling witInput).hourly_pv.getD 0 0)
          ((plan_battery_schedule_rolling witInput).hourly_charging.getD 0 0)
          ((plan_battery_schedule_rolling witInput).hourly_consumption.getD 0 0) :=
  ⟨by norm_num [witInput],
   conservation_reconstruction witInput (by norm_num [witInput]) 1
     (by norm_num) (by norm_num [witInput])⟩

/-! ## Charging-state invariants (C9, C10) -/

theorem lastCharge_nil (h : ℕ) : lastCharge [] h = 0 := rfl

theorem lastCharge_append_same (ws : List ChargeWindow) (h : ℕ) (c pr : ℚ) :
    lastCharge (ws ++ [⟨h, c, pr⟩]) h = c := by
  unfold lastCharge
  rw [List.filter_append]
  have hf : List.filter (fun w => decide (w.hour = h)) [(⟨h, c, pr⟩ : ChargeWindow)]
      = [⟨h, c, pr⟩] := by simp
  rw [hf, List.getLast?_concat]
  rfl

theorem lastCharge_append_other (ws : List ChargeWindow) (h a : ℕ) (c pr : ℚ)
    (hne : a ≠ h) : lastCharge (ws ++ [⟨a, c, pr⟩]) h = lastCharge ws h := by
  unfold lastCharge
  rw [List.filter_append]
  have hf : List.filter (fun w => decide (w.hour = h)) [(⟨a, c, pr⟩ : ChargeWindow)]
      = [] := by simp [hne]
  rw [hf, List.append_nil]

theorem map_updFn_of_not_mem (f : ℕ → ℚ) (a : ℕ) (v : ℚ) (l : List ℕ) (h : a ∉ l) :
    l.map (updFn f a v) = l.map f := by
  apply List.map_congr_left
  intro x hx
  unfold updFn
  rw [if_neg]
  rintro rfl
  exact h hx

theorem sum_map_updFn (f : ℕ → ℚ) (a : ℕ) (v : ℚ) :
    ∀ l : List ℕ, l.Nodup → a ∈ l →
      (l.map (updFn f a v)).sum = (l.map f).sum + v - f a := by
  intro l
  induction l with
  | nil => intro _ hmem; cases hmem
  | cons x xs ih =>
      intro hnd hmem
      rcases List.mem_cons.mp hmem with rfl | hmem2
      · have hax : a ∉ xs := (List.nodup_cons.mp hnd).1
        rw [List.map_cons, List.map_cons, List.sum_cons, List.sum_cons,
          map_updFn_of_not_mem f a v xs hax]
        have : updFn f a v a = v := by unfold updFn; rw [if_pos rfl]
        rw [this]
        ring
      · have hx : x ≠ a := by
          rintro rfl
          exact (List.nodup_cons.mp hnd).1 hmem2
        rw [List.map_cons, List.map_cons, List.sum_cons, List.sum_cons,
          ih (List.nodup_cons.mp hnd).2 hmem2]
        have : updFn f a v x = f x := by unfold updFn; rw [if_neg hx]
        rw [this]
        ring

theorem commit_inv {maxp : ℚ} {st : ChargeState} (h : ChargeInv maxp st)
    (hh : ℕ) (c pr : ℚ) (hc0 : 0 < c) (hcm : c ≤ maxp) :
    ChargeInv maxp (commitCharge st hh c pr) := by
  obtain ⟨i1, i2, i3⟩ := h
  refine ⟨?_, ?_, ?_⟩
  · intro x
    show updFn st.chg hh c x = lastCharge (st.windows ++ [(⟨hh, c, pr⟩ : ChargeWindow)]) x
    by_cases hx : x = hh
    · subst hx
      unfold updFn
      rw [if_pos rfl, lastCharge_append_same]
    · unfold updFn
      rw [if_neg hx, lastCharge_append_other st.windows x hh c pr fun he => hx he.symm]
      exact i1 x
  · intro x
    show 0 ≤ updFn st.chg hh c x ∧ updFn st.chg hh c x ≤ maxp
    unfold updFn
    by_cases hx : x = hh
    · rw [if_pos hx]
      exact ⟨le_of_lt hc0, hcm⟩
    · rw [if_neg hx]
      exact i2 x
  · intro M
    show ((List.range M).map (updFn st.chg hh c)).sum
      ≤ ((st.windows ++ [(⟨hh, c, pr⟩ : ChargeWindow)]).map ChargeWindow.charge_kwh).sum
    rw [List.map_append, List.sum_append]
    by_cases hmem : hh ∈ List.range M
    · rw [sum_map_updFn st.chg hh c _ (List.nodup_range M) hmem]
      have h0 : 0 ≤ st.chg hh := (i2 hh).1
      have h3 := i3 M
      simp only [List.map_cons, List.map_nil, List.sum_cons, List.sum_nil]
      linarith
    · rw [map_updFn_of_not_mem st.chg hh c _ hmem]
      have h3 := i3 M
      simp only [List.map_cons, List.map_nil, List.sum_cons, List.sum_nil]
      linarith

theorem applySlots_inv (P : PlanInput) (ps : ℕ) (initial : ℚ)
    (hm : 0 < P.max_charge_power) :
    ∀ (slots : List Slot) (rem : ℚ) (st : ChargeState),
      ChargeInv P.max_charge_power st →
      ChargeInv P.max_charge_power (applySlots P ps initial slots rem st) := by
  intro slots
  induction slots with
  | nil => intro rem st h; exact h
  | cons s ss ih =>
      intro rem st h
      unfold applySlots
      by_cases h1 : rem ≤ 1/10
      · rw [if_pos h1]; exact h
      · rw [if_neg h1]
        by_cases h2 : 5/2 < P.pv s.hour ∧ ((s.hour : ℤ) - (ps : ℤ)).natAbs ≤ 4
        · rw [if_pos h2]; exact ih rem st h
        · rw [if_neg h2]
          by_cases h3 : 57/200 < s.price ∧ initial * (3/5) < initial - rem
          · rw [if_pos h3]; exact h
          · rw [if_neg h3]
            refine ih _ _ (commit_inv h s.hour _ s.price ?_ (min_le_right _ _))
            have hrem : (0 : ℚ) < rem := lt_trans (by norm_num) (not_le.mp h1)
            exact lt_min hrem hm

theorem applyFallback_inv (P : PlanInput) (hm : 0 < P.max_charge_power) :
    ∀ (slots : List Slot) (rem : ℚ) (st : ChargeState),
      ChargeInv P.max_charge_power st →
      ChargeInv P.max_charge_power (applyFallback P slots rem st) := by
  intro slots
  induction slots with
  | nil => intro rem st h; exact h
  | cons s ss ih =>
      intro rem st h
      unfold applyFallback
      by_cases h1 : rem ≤ 0
      · rw [if_pos h1]; exact h
      · rw [if_neg h1]
        refine ih _ _ (commit_inv h s.hour _ s.price ?_ (min_le_right _ _))
        exact lt_min (not_le.mp h1) hm

theorem processPeak_inv (P : PlanInput) (hm : 0 < P.max_charge_power)
    (searchStart : ℕ) (pk : List ℕ) (st : ChargeState)
    (h : ChargeInv P.max_charge_power st) :
    ChargeInv P.max_charge_power (processPeak P searchStart pk st) := by
  unfold processPeak
  dsimp only
  split
  · exact applySlots_inv P _ _ hm _ _ _ h
  · exact h

theorem processPeaks_inv (P : PlanInput) (hm : 0 < P.max_charge_power) :
    ∀ (pks : List (List ℕ)) (searchStart : ℕ) (st : ChargeState),
      ChargeInv P.max_charge_power st →
      ChargeInv P.max_charge_power (processPeaks P pks searchStart st) := by
  intro pks
  induction pks with
  | nil => intro searchStart st h; exact h
  | cons pk rest ih =>
      intro searchStart st h
      exact ih _ _ (processPeak_inv P hm searchStart pk st h)

theorem initChargeState_inv {maxp : ℚ} (hm : 0 < maxp) : ChargeInv maxp initChargeState := by
  refine ⟨?_, ?_, ?_⟩
  · intro h; rfl
  · intro h; exact ⟨le_refl 0, le_of_lt hm⟩
  · intro M
    show ((List.range M).map fun _ => (0 : ℚ)).sum ≤ (([] : List ChargeWindow).map _).sum
    rw [List.map_const']
    simp

theorem step4State_inv (P : PlanInput) (hm : 0 < P.max_charge_power) :
    ChargeInv P.max_charge_power (step4State P) := by
  unfold step4State
  by_cases h1 : peaks P ≠ [] ∧ deficitHours P ≠ []
  · rw [if_pos h1]
    exact processPeaks_inv P hm _ _ _ (initChargeState_inv hm)
  · rw [if_neg h1]
    by_cases h2 : deficitHours P ≠ []
    · rw [if_pos h2]
      exact applyFallback_inv P hm _ _ _ (initChargeState_inv hm)
    · rw [if_neg h2]
      exact initChargeState_inv hm

/-! ## C9: charging bounds -/

/-- C9 (confirmed): with `max_charge_power_kw > 0`, every entry of the
plan's `hourly_charging` array lies in `[0, max_charge_power_kw]`: each
committed charge is `min(remaining, max_charge_power)` with a positive
remainder, and unplanned hours stay at zero. -/
theorem charging_bounds (P : PlanInput) (hm : 0 < P.max_charge_power) :
    ∀ i < P.lookahead_hours,
      0 ≤ (plan_battery_schedule_rolling P).hourly_charging.getD i 0 ∧
      (plan_battery_schedule_rolling P).hourly_charging.getD i 0 ≤ P.max_charge_power := by
  intro i hi
  have e : (plan_battery_schedule_rolling P).hourly_charging.getD i 0
      = (step4State P).chg i := by
    show ((List.range P.lookahead_hours).map (step4State P).chg).getD i 0 = _
    exact getD_map_range _ hi
  rw [e]
  exact (step4State_inv P hm).2.1 i

/-- Witness for C9 at a concrete input. -/
theorem charging_bounds_witness :
    (0 : ℚ) < witInput.max_charge_power ∧
    (0 ≤ (plan_battery_schedule_rolling witInput).hourly_charging.getD 0 0 ∧
      (plan_battery_schedule_rolling witInput).hourly_charging.getD 0 0
        ≤ witInput.max_charge_power) :=
  ⟨by norm_num [witInput],
   charging_bounds witInput (by norm_num [witInput]) 0 (by norm_num [witInput])⟩

/-! ## C10: charging windows versus the hourly charging array -/

/-- C10 (counterexample): at `cx10Input` the refinement loop appends hours
4 and 3 to `available_hours` twice — once via the not-enough-hours expansion
of iteration 0 and once via the too-late-window expansion of a later
iteration — so the final allocation emits two `charging_windows` entries
for the same hour, and `total_charging_kwh` (the sum of the hourly array,
2.9164 kWh) differs from the sum of the window entries (3.9164 kWh). -/
theorem charging_windows_counterexample :
    (0 : ℚ) < cx10Input.max_charge_power ∧
    ¬ ((plan_battery_schedule_rolling cx10Input).charging_windows.Pairwise
        fun a b => a.hour ≠ b.hour) ∧
    (plan_battery_schedule_rolling cx10Input).total_charging_kwh
      ≠ ((plan_battery_schedule_rolling cx10Input).charging_windows.map
          ChargeWindow.charge_kwh).sum := by
  with_unfolding_all decide

/-- C10 (amended): window hours need not be pairwise distinct and the
window total may exceed `total_charging_kwh` (a later duplicate entry
overwrites the hour's slot). What does hold for every plan: each
`hourly_charging[h]` equals the charge of the last `charging_windows`
entry for hour `h` — zero when no entry mentions `h` — and
`total_charging_kwh`, the sum of the hourly array, is at most the sum of
`charge_kwh` over `charging_windows`. -/
theorem charging_windows_amended (P : PlanInput) (hm : 0 < P.max_charge_power) :
    (∀ h < P.lookahead_hours,
      (plan_battery_schedule_rolling P).hourly_charging.getD h 0
        = lastCharge (plan_battery_schedule_rolling P).charging_windows h) ∧
    (plan_battery_schedule_rolling P).total_charging_kwh
      ≤ ((plan_battery_schedule_rolling P).charging_windows.map
          ChargeWindow.charge_kwh).sum := by
  have hinv := step4State_inv P hm
  constructor
  · intro h hh
    have e : (plan_battery_schedule_rolling P).hourly_charging.getD h 0
        = (step4State P).chg h := by
      show ((List.range P.lookahead_hours).map (step4State P).chg).getD h 0 = _
      exact getD_map_range _ hh
    rw [e]
    exact hinv.1 h
  · exact hinv.2.2 P.lookahead_hours

/-- Witness for C10 (amended) at a concrete input. -/
theorem charging_windows_amended_witness :
    (0 : ℚ) < witInput.max_charge_power ∧
    (plan_battery_schedule_rolling witInput).hourly_charging.getD 0 0
      = lastCharge (plan_battery_schedule_rolling witInput).charging_windows 0 ∧
    (plan_battery_schedule_rolling witInput).total_charging_kwh
      ≤ ((plan_battery_schedule_rolling witInput).charging_windows.map
          ChargeWindow.charge_kwh).sum :=
  ⟨by norm_num [witInput],
   (charging_windows_amended witInput (by norm_num [witInput])).1 0
     (by norm_num [witInput]),
   (charging_windows_amended witInput (by norm_num [witInput])).2⟩

/-! ## C7: expensive-hour classification and peak clustering -/

theorem groupPeaksAux_join :
    ∀ (rest cur : List ℕ) (prev : ℕ), (groupPeaksAux cur prev rest).flatten = cur ++ rest := by
  intro rest
  induction rest with
  | nil => intro cur prev; simp [groupPeaksAux]
  | cons e es ih =>
      intro cur prev
      unfold groupPeaksAux
      by_cases hgap : 3 < (e : ℤ) - (prev : ℤ)
      · rw [if_pos hgap]
        simp [List.flatten, ih]
      · rw [if_neg hgap]
        rw [ih]
        simp

theorem groupPeaksAux_ne_nil :
    ∀ (rest cur : List ℕ) (prev : ℕ), cur ≠ [] →
      ∀ p ∈ groupPeaksAux cur prev rest, p ≠ [] := by
  intro rest
  induction rest with
  | nil =>
      intro cur prev hc p hp
      simp only [groupPeaksAux, List.mem_singleton] at hp
      subst hp; exact hc
  | cons e es ih =>
      intro cur prev hc p hp
      unfold groupPeaksAux at hp
      by_cases hgap : 3 < (e : ℤ) - (prev : ℤ)
      · rw [if_pos hgap] at hp
        rcases List.mem_cons.mp hp with rfl | hp2
        · exact hc
        · exact ih [e] e (by simp) p hp2
      · rw [if_neg hgap] at hp
        exact ih (cur ++ [e]) e (by simp) p hp

theorem groupPeaksAux_chain :
    ∀ (rest cur : List ℕ) (prev : ℕ), cur.getLast? = some prev →
      cur.Chain' (fun (a b : ℕ) => (b : ℤ) - (a : ℤ) ≤ 3) →
      ∀ p ∈ groupPeaksAux cur prev rest, p.Chain' fun (a b : ℕ) => (b : ℤ) - (a : ℤ) ≤ 3 := by
  intro rest
  induction rest with
  | nil =>
      intro cur prev _ hch p hp
      simp only [groupPeaksAux, List.mem_singleton] at hp
      subst hp; exact hch
  | cons e es ih =>
      intro cur prev hlast hch p hp
      unfold groupPeaksAux at hp
      by_cases hgap : 3 < (e : ℤ) - (prev : ℤ)
      · rw [if_pos hgap] at hp
        rcases List.mem_cons.mp hp with rfl | hp2
        · exact hch
        · exact ih [e] e (by simp) (by simp) p hp2
      · rw [if_neg hgap] at hp
        refine ih (cur ++ [e]) e (List.getLast?_concat cur) ?_ p hp
        rw [List.chain'_append]
        refine ⟨hch, by simp, ?_⟩
        intro x hx y hy
        rw [hlast] at hx
        simp only [Option.mem_def, Option.some.injEq] at hx
        simp only [List.head?_cons, Option.mem_def, Option.some.injEq] at hy
        subst hx; subst hy
        exact le_of_not_lt hgap

theorem groupPeaksAux_head :
    ∀ (rest cur : List ℕ) (prev : ℕ),
      ∃ q rest2, groupPeaksAux cur prev rest = (cur ++ q) :: rest2 := by
  intro rest
  induction rest with
  | nil => intro cur prev; exact ⟨[], [], by simp [groupPeaksAux]⟩
  | cons e es ih =>
      intro cur prev
      unfold groupPeaksAux
      by_cases hgap : 3 < (e : ℤ) - (prev : ℤ)
      · rw [if_pos hgap]
        exact ⟨[], groupPeaksAux [e] e es, by simp⟩
      · rw [if_neg hgap]
        obtain ⟨q, rest2, hq⟩ := ih (cur ++ [e]) e
        exact ⟨[e] ++ q, rest2, by rw [hq, List.append_assoc]⟩

theorem groupPeaksAux_gapChain :
    ∀ (rest cur : List ℕ) (prev : ℕ), cur.getLast? = some prev →
      (groupPeaksAux cur prev rest).Chain' peakGapOk := by
  intro rest
  induction rest with
  | nil => intro cur prev _; simp [groupPeaksAux]
  | cons e es ih =>
      intro cur prev hlast
      unfold groupPeaksAux
      by_cases hgap : 3 < (e : ℤ) - (prev : ℤ)
      · rw [if_pos hgap]
        rw [List.chain'_cons']
        refine ⟨?_, ih [e] e (by simp)⟩
        intro y hy
        obtain ⟨q, rest2, hq⟩ := groupPeaksAux_head es [e] e
        rw [hq] at hy
        simp only [List.head?_cons, Option.mem_def, Option.some.injEq] at hy
        subst hy
        intro a b ha hb
        rw [hlast] at ha
        simp only [Option.mem_def, Option.some.injEq] at ha
        simp only [List.cons_append, List.head?_cons, Option.some.injEq] at hb
        rw [← ha, ← hb]
        exact hgap
      · rw [if_neg hgap]
        exact ih (cur ++ [e]) e (List.getLast?_concat cur)

/-- C7 (confirmed): an hour is classified expensive exactly when its price
is at least `max(mean_price * 1.05, sorted_prices[floor(0.6 * N)])`, and
the peak clustering partitions the ascending expensive-hour list so that
successive hours within a cluster are at most 3 hours apart while each new
cluster starts more than 3 hours after the previous cluster's last hour. -/
theorem peak_identification (P : PlanInput) :
    (∀ h, h ∈ expensiveHours P ↔ h < P.lookahead_hours ∧
        max ((pricesList P).sum / (P.lookahead_hours : ℚ) * (105 / 100))
          (((pricesList P).mergeSort fun a b => a ≤ b).getD
            (3 * P.lookahead_hours / 5) 0) ≤ P.price h) ∧
    (peaks P).flatten = expensiveHours P ∧
    (∀ p ∈ peaks P, p ≠ []) ∧
    (∀ p ∈ peaks P, p.Chain' fun (a b : ℕ) => (b : ℤ) - (a : ℤ) ≤ 3) ∧
    (peaks P).Chain' peakGapOk := by
  refine ⟨?_, ?_, ?_, ?_, ?_⟩
  · intro h
    unfold expensiveHours
    rw [List.mem_filter, List.mem_range]
    constructor
    · rintro ⟨h1, h2⟩
      exact ⟨h1, by simpa [priceThreshold, avgPrice, sortedPrices, pricesList] using h2⟩
    · rintro ⟨h1, h2⟩
      exact ⟨h1, by simpa [priceThreshold, avgPrice, sortedPrices, pricesList] using h2⟩
  · unfold peaks groupPeaks
    cases hE : expensiveHours P with
    | nil => rfl
    | cons e es => exact groupPeaksAux_join es [e] e
  · unfold peaks groupPeaks
    cases hE : expensiveHours P with
    | nil => intro p hp; cases hp
    | cons e es => exact groupPeaksAux_ne_nil es [e] e (by simp)
  · unfold peaks groupPeaks
    cases hE : expensiveHours P with
    | nil => intro p hp; cases hp
    | cons e es => exact groupPeaksAux_chain es [e] e (by simp) (by simp)
  · unfold peaks groupPeaks
    cases hE : expensiveHours P with
    | nil => simp
    | cons e es => exact groupPeaksAux_gapChain es [e] e (by simp)

/-! ## C5: weekday-conditioned average -/

theorem dedupPerDay_ne_nil (l : List CSample) (h : l ≠ []) : dedupPerDay l ≠ [] := by
  cases l with
  | nil => exact absurd rfl h
  | cons x xs =>
      unfold dedupPerDay
      intro hcon
      rw [List.filterMap_eq_nil] at hcon
      have hx : x.day ∈ ((x :: xs).map CSample.day).dedup := by
        rw [List.mem_dedup]
        exact List.mem_map_of_mem _ (List.mem_cons_self x xs)
      have hb := hcon _ hx
      rw [List.filter_cons_of_pos (by simp)] at hb
      unfold bestRow at hb
      exact Option.some_ne_none _ hb

/-- C5 (counterexample): a store holding exactly one sample at the queried
hour and weekday, with value 0, has a deduplicated mean of 0 over its
matching samples, yet `get_average_consumption` returns the fallback 1
(the Python code tests the SQL average for truthiness, so a zero mean is
treated like missing data). The claim's "fallback exactly when no matching
samples exist" is therefore false. -/
theorem average_consumption_counterexample :
    matchingSamples cx5Store 14 (some 0) ≠ [] ∧
    average_consumption_spec cx5Store 14 (some 0) = 0 ∧
    get_average_consumption cx5Store 14 (some 0) = 1 ∧
    get_average_consumption cx5Store 14 (some 0)
      ≠ average_consumption_spec cx5Store 14 (some 0) := by
  with_unfolding_all decide

/-- C5 (amended): `get_average_consumption(hour, target_date)` returns the
mean `consumption_kwh` over the stored samples at that hour restricted to
the target date's weekday, after per-(date,hour) deduplication, except that
the configured fallback is returned both when no sample matches and when
the deduplicated mean is zero (a truthiness artefact of the source); the
result depends only on the matching samples. -/
theorem average_consumption_amended (store : CStore) (hour : ℕ) (target : Option ℤ) :
    (matchingSamples store hour target = [] →
      get_average_consumption store hour target = store.fallback) ∧
    (dedupMean (matchingSamples store hour target) = 0 →
      get_average_consumption store hour target = store.fallback) ∧
    (matchingSamples store hour target ≠ [] →
      dedupMean (matchingSamples store hour target) ≠ 0 →
      get_average_consumption store hour target
        = dedupMean (matchingSamples store hour target)) ∧
    get_average_consumption ⟨matchingSamples store hour target, store.fallback⟩ hour target
      = get_average_consumption store hour target := by
  have hfilter : matchingSamples ⟨matchingSamples store hour target, store.fallback⟩ hour target
      = matchingSamples store hour target := by
    unfold matchingSamples
    simp [List.filter_filter]
  refine ⟨?_, ?_, ?_, ?_⟩
  · intro hm
    unfold get_average_consumption
    rw [hm]
    simp [dedupPerDay]
  · intro hmean
    unfold get_average_consumption
    unfold dedupMean at hmean
    rw [if_pos (Or.inr hmean)]
  · intro hm hmean
    unfold get_average_consumption
    unfold dedupMean at hmean
    rw [if_neg]
    · rfl
    rintro (hemp | hzero)
    · exact dedupPerDay_ne_nil _ hm (List.isEmpty_iff.mp hemp)
    · exact hmean hzero
  · unfold get_average_consumption
    rw [hfilter]

/-- Witness for C5 (amended): two samples at hour 14 on different weekdays;
the query for a day of weekday 0 sees only the weekday-0 sample and returns
its value 2, untouched by the weekday-1 sample of value 100. -/
theorem average_consumption_amended_witness :
    matchingSamples wit5Store 14 (some 7) ≠ [] ∧
    dedupMean (matchingSamples wit5Store 14 (some 7)) ≠ 0 ∧
    get_average_consumption wit5Store 14 (some 7)
      = dedupMean (matchingSamples wit5Store 14 (some 7)) ∧
    get_average_consumption wit5Store 14 (some 7) = 2 :=
  ⟨by with_unfolding_all decide, by with_unfolding_all decide,
   (average_consumption_amended wit5Store 14 (some 7)).2.2.1
     (by with_unfolding_all decide) (by with_unfolding_all decide),
   by with_unfolding_all decide⟩

/-! ## C6: fully populated 24-hour profile -/

theorem matchesQuery_iff (hour : ℕ) (target : Option ℤ) (s : CSample) :
    matchesQuery hour target s ↔ s.hour = hour ∧ matchesWeekday target s := by
  unfold matchesQuery matchesWeekday
  cases target <;> simp

theorem mem_presentHours (store : CStore) (target : Option ℤ) (h : ℕ) :
    h ∈ presentHours store target ↔ matchingSamples store h target ≠ [] := by
  unfold presentHours
  rw [List.mem_dedup, List.mem_map]
  constructor
  · rintro ⟨s, hs, rfl⟩
    unfold profileRows at hs
    rw [List.mem_filter] at hs
    refine List.ne_nil_of_mem (a := s) ?_
    unfold matchingSamples
    rw [List.mem_filter]
    refine ⟨hs.1, ?_⟩
    have hw : matchesWeekday target s := of_decide_eq_true hs.2
    exact decide_eq_true ((matchesQuery_iff s.hour target s).mpr ⟨rfl, hw⟩)
  · intro hne
    obtain ⟨s, hs⟩ := List.exists_mem_of_ne_nil _ hne
    unfold matchingSamples at hs
    rw [List.mem_filter] at hs
    have hq : matchesQuery h target s := of_decide_eq_true hs.2
    obtain ⟨hh, hw⟩ := (matchesQuery_iff h target s).mp hq
    refine ⟨s, ?_, hh⟩
    unfold profileRows
    rw [List.mem_filter]
    exact ⟨hs.1, decide_eq_true hw⟩

/-- C6 (confirmed): the profile is populated for every hour 0..23 — an hour
with matching samples carries their deduplicated mean, an hour without
matching samples carries the mean of the populated per-hour averages, and
when the query sees no samples at all (in particular for an empty store)
every hour carries the default fallback constant. -/
theorem hourly_profile_populated (store : CStore) (target : Option ℤ) :
    ∀ h, h < 24 →
      (store.samples = [] → get_hourly_profile store target h = store.fallback) ∧
      (presentHours store target = [] →
        get_hourly_profile store target h = store.fallback) ∧
      (hourRows store target h ≠ [] →
        get_hourly_profile store target h = dedupMean (matchingSamples store h target)) ∧
      (hourRows store target h = [] → presentHours store target ≠ [] →
        get_hourly_profile store target h
          = ((presentHours store target).map fun h2 =>
              dedupMean (matchingSamples store h2 target)).sum
              / ((presentHours store target).length : ℚ)) := by
  intro h _
  refine ⟨?_, ?_, ?_, ?_⟩
  · intro hs
    have hp : presentHours store target = [] := by
      unfold presentHours profileRows
      rw [hs]
      rfl
    unfold get_hourly_profile
    rw [if_pos hp]
  · intro hp
    unfold get_hourly_profile
    rw [if_pos hp]
  · intro hrows
    have hmne : matchingSamples store h target ≠ [] := by
      intro hm
      apply hrows
      unfold hourRows
      rw [hm]
      rfl
    have hmem : h ∈ presentHours store target := (mem_presentHours store target h).mpr hmne
    have hpne : presentHours store target ≠ [] := List.ne_nil_of_mem hmem
    unfold get_hourly_profile
    rw [if_neg hpne]
    show (if h ∈ presentHours store target then _ else _) = _
    rw [if_pos hmem]
  · intro hrows hpne
    have hm : matchingSamples store h target = [] := by
      by_contra hmne
      exact dedupPerDay_ne_nil _ hmne hrows
    have hnotmem : h ∉ presentHours store target := by
      rw [mem_presentHours]
      simpa using hm
    unfold get_hourly_profile
    rw [if_neg hpne]
    show (if h ∈ presentHours store target then _ else _) = _
    rw [if_neg hnotmem]

/-- Witness for C6: a store with data at hours 3 and 4 only; hour 3 gets
the weekday-deduplicated mean 3, hour 5 gets the mean of the two populated
hour averages (3 and 10), i.e. 6.5. -/
theorem hourly_profile_populated_witness :
    (3 : ℕ) < 24 ∧ hourRows wit6Store (some 0) 3 ≠ [] ∧
    get_hourly_profile wit6Store (some 0) 3
      = dedupMean (matchingSamples wit6Store 3 (some 0)) ∧
    get_hourly_profile wit6Store (some 0) 3 = 3 ∧
    hourRows wit6Store (some 0) 5 = [] ∧ presentHours wit6Store (some 0) ≠ [] ∧
    get_hourly_profile wit6Store (some 0) 5 = 13/2 :=
  ⟨by decide, by with_unfolding_all decide,
   (hourly_profile_populated wit6Store (some 0) 3 (by decide)).2.2.1
     (by with_unfolding_all decide),
   by with_unfolding_all decide, by with_unfolding_all decide,
   by with_unfolding_all decide, by with_unfolding_all decide⟩

/-! ## C8: import validation -/

theorem importGo_counts (t : ℕ) :
    ∀ (batch : List DayRecord) (samples : List CSample) (a b : ℕ),
      (importGo t batch (samples, a, b)).2.1
          = a + 24 * (batch.filter fun r => r.hours.length = 24).length ∧
      (importGo t batch (samples, a, b)).2.2
          = b + (batch.filter fun r => ¬ r.hours.length = 24).length := by
  intro batch
  induction batch with
  | nil => intro samples a b; simp [importGo]
  | cons r rs ih =>
      intro samples a b
      unfold importGo
      by_cases hr : r.hours.length = 24
      · rw [if_pos hr]
        obtain ⟨h1, h2⟩ := ih (importDayHours r.day r.hours t samples) (a + 24) b
        refine ⟨?_, ?_⟩
        · rw [h1, List.filter_cons_of_pos (by simp [hr])]
          simp only [List.length_cons]
          ring
        · rw [h2, List.filter_cons_of_neg (by simp [hr])]
      · rw [if_neg hr]
        obtain ⟨h1, h2⟩ := ih samples a (b + 1)
        refine ⟨?_, ?_⟩
        · rw [h1, List.filter_cons_of_neg (by simp [hr])]
        · rw [h2, List.filter_cons_of_pos (by simp [hr])]
          simp only [List.length_cons]
          ring

theorem importGo_cons (t : ℕ) (r : DayRecord) (rs : List DayRecord)
    (samples : List CSample) (a b : ℕ) :
    importGo t (r :: rs) (samples, a, b)
      = if r.hours.length = 24 then
          importGo t rs (importDayHours r.day r.hours t samples, a + 24, b)
        else importGo t rs (samples, a, b + 1) := rfl

theorem importGo_fst (t : ℕ) :
    ∀ (batch : List DayRecord) (samples : List CSample) (a b a2 b2 : ℕ),
      (importGo t batch (samples, a, b)).1 = (importGo t batch (samples, a2, b2)).1 := by
  intro batch
  induction batch with
  | nil => intro samples a b a2 b2; rfl
  | cons r rs ih =>
      intro samples a b a2 b2
      unfold importGo
      by_cases hr : r.hours.length = 24
      · rw [if_pos hr, if_pos hr]
        exact ih _ _ _ _ _
      · rw [if_neg hr, if_neg hr]
        exact ih _ _ _ _ _

theorem importGo_filter (t : ℕ) :
    ∀ (batch : List DayRecord) (samples : List CSample) (a b : ℕ),
      (importGo t batch (samples, a, b)).1
        = (importGo t (batch.filter fun r => r.hours.length = 24) (samples, a, b)).1 := by
  intro batch
  induction batch with
  | nil => intro samples a b; rfl
  | cons r rs ih =>
      intro samples a b
      by_cases hr : r.hours.length = 24
      · rw [List.filter_cons_of_pos (by simp [hr]), importGo_cons, importGo_cons,
          if_pos hr, if_pos hr]
        exact ih _ _ _
      · rw [List.filter_cons_of_neg (by simp [hr]), importGo_cons, if_neg hr,
          ih samples a (b + 1)]
        exact importGo_fst t _ _ _ _ _ _

theorem mem_insertSample (l : List CSample) (s : CSample) : s ∈ insertSample l s := by
  unfold insertSample
  exact List.mem_append_right _ (List.mem_singleton_self s)

theorem mem_insertSample_of_ne (l : List CSample) (s u : CSample) (hu : u ∈ l)
    (hne : ¬(u.day = s.day ∧ u.hour = s.hour)) : u ∈ insertSample l s := by
  unfold insertSample
  apply List.mem_append_left
  rw [List.mem_filter]
  exact ⟨hu, decide_eq_true hne⟩

theorem foldl_insert_preserve (g : ℕ → CSample) (u : CSample) :
    ∀ (L : List ℕ) (acc : List CSample), u ∈ acc →
      (∀ x ∈ L, ¬(u.day = (g x).day ∧ u.hour = (g x).hour)) →
      u ∈ L.foldl (fun acc2 x => insertSample acc2 (g x)) acc := by
  intro L
  induction L with
  | nil => intro acc hu _; exact hu
  | cons x xs ih =>
      intro acc hu hx
      simp only [List.foldl_cons]
      exact ih _ (mem_insertSample_of_ne _ _ _ hu (hx x (List.mem_cons_self x xs)))
        fun y hy => hx y (List.mem_cons_of_mem x hy)

theorem foldl_insert_mem (g : ℕ → CSample) (hg : ∀ x, (g x).hour = x) :
    ∀ (L : List ℕ) (acc : List CSample) (h : ℕ), h ∈ L → L.Nodup →
      g h ∈ L.foldl (fun acc2 x => insertSample acc2 (g x)) acc := by
  intro L
  induction L with
  | nil => intro acc h hmem _; cases hmem
  | cons x xs ih =>
      intro acc h hmem hnd
      simp only [List.foldl_cons]
      rcases List.mem_cons.mp hmem with rfl | hmem2
      · apply foldl_insert_preserve
        · exact mem_insertSample _ _
        · intro y hy hcon
          have hh2 : h = y := by
            have := hcon.2
            rwa [hg h, hg y] at this
          exact (List.nodup_cons.mp hnd).1 (hh2 ▸ hy)
      · exact ih _ h hmem2 (List.nodup_cons.mp hnd).2

theorem importDayHours_mem (day : ℤ) (hours : List ℚ) (t : ℕ) (samples : List CSample) :
    ∀ h, h < 24 →
      (⟨day, h, clampImport (hours.getD h 0), true, t⟩ : CSample)
        ∈ importDayHours day hours t samples := by
  intro h hh
  unfold importDayHours
  exact foldl_insert_mem (fun x => ⟨day, x, clampImport (hours.getD x 0), true, t⟩)
    (fun x => rfl) (List.range 24) samples h (List.mem_range.mpr hh) (List.nodup_range 24)

theorem mem_cleanup (cutoff : ℤ × ℕ) (l : List CSample) (s : CSample) (hs : s ∈ l)
    (hc : ¬(s.day < cutoff.1 ∨ (s.day = cutoff.1 ∧ s.hour < cutoff.2))) :
    s ∈ cleanupOldData cutoff l := by
  unfold cleanupOldData
  rw [List.mem_filter]
  exact ⟨hs, decide_eq_true hc⟩

/-- C8 (confirmed): `import_detailed_history` is total (never raises) and
returns `imported_hours` = 24 times the number of records carrying exactly
24 values and `skipped_days` = the number of records that do not; the
resulting store is identical to importing only the well-formed records, so
a skipped day contributes nothing; and an accepted day stores, for each of
its 24 hours surviving the retention cutoff, the value clamped into
`[0, 50]` (negatives to 0, values above 50 to 50), tagged manual. -/
theorem import_batch_validation (store : CStore) (t : ℕ) (cutoff : ℤ × ℕ)
    (batch : List DayRecord) :
    (import_detailed_history store t cutoff batch).2.1
        = 24 * (batch.filter fun r => r.hours.length = 24).length ∧
    (import_detailed_history store t cutoff batch).2.2
        = (batch.filter fun r => ¬ r.hours.length = 24).length ∧
    (import_detailed_history store t cutoff batch).1.samples
        = (import_detailed_history store t cutoff
            (batch.filter fun r => r.hours.length = 24)).1.samples ∧
    (∀ r : DayRecord, r.hours.length = 24 → ∀ h, h < 24 →
      ¬(r.day < cutoff.1 ∨ (r.day = cutoff.1 ∧ h < cutoff.2)) →
      (⟨r.day, h, clampImport (r.hours.getD h 0), true, t⟩ : CSample)
        ∈ (import_detailed_history store t cutoff [r]).1.samples) := by
  refine ⟨?_, ?_, ?_, ?_⟩
  · show (importGo t batch (store.samples, 0, 0)).2.1 = _
    rw [(importGo_counts t batch store.samples 0 0).1]
    omega
  · show (importGo t batch (store.samples, 0, 0)).2.2 = _
    rw [(importGo_counts t batch store.samples 0 0).2]
    omega
  · show cleanupOldData cutoff (importGo t batch (store.samples, 0, 0)).1
        = cleanupOldData cutoff (importGo t _ (store.samples, 0, 0)).1
    rw [importGo_filter t batch store.samples 0 0]
  · intro r hr h hh hc
    show _ ∈ cleanupOldData cutoff (importGo t [r] (store.samples, 0, 0)).1
    have hgo : (importGo t [r] (store.samples, 0, 0)).1
        = importDayHours r.day r.hours t store.samples := by
      unfold importGo
      rw [if_pos hr]
      rfl
    rw [hgo]
    exact mem_cleanup cutoff _ _ (importDayHours_mem r.day r.hours t store.samples h hh) hc

/-- Witness for C8: the spec's test vector — a 23-value day yields
`skipped_days = 1, imported_hours = 0` and stores nothing; a 24-value day
containing -1 and 60 stores 0 and 50 for those hours. -/
theorem import_batch_validation_witness :
    (import_detailed_history ⟨[], 1⟩ 0 (-10, 0) wit8BatchShort).2.2 = 1 ∧
    (import_detailed_history ⟨[], 1⟩ 0 (-10, 0) wit8BatchShort).2.1 = 0 ∧
    (import_detailed_history ⟨[], 1⟩ 0 (-10, 0) wit8BatchShort).1.samples = [] ∧
    wit8Day.hours.length = 24 ∧
    (⟨wit8Day.day, 0, clampImport (wit8Day.hours.getD 0 0), true, 0⟩ : CSample)
      ∈ (import_detailed_history ⟨[], 1⟩ 0 (-10, 0) [wit8Day]).1.samples ∧
    clampImport (wit8Day.hours.getD 0 0) = 0 ∧
    clampImport (wit8Day.hours.getD 1 0) = 50 :=
  ⟨by with_unfolding_all decide, by with_unfolding_all decide,
   by with_unfolding_all decide, by with_unfolding_all decide,
   (import_batch_validation ⟨[], 1⟩ 0 (-10, 0) [wit8Day]).2.2.2 wit8Day
     (by with_unfolding_all decide) 0 (by decide) (by with_unfolding_all decide),
   by with_unfolding_all decide, by with_unfolding_all decide⟩

/-! ## C2: fallback safety -/

theorem get_average_consumption_empty (fb : ℚ) (hour : ℕ) (target : Option ℤ) :
    get_average_consumption ⟨[], fb⟩ hour target = fb := by
  with_unfolding_all rfl

theorem pvLookup_nil (idx : ℕ) : pvLookup [] idx = 0 := by
  unfold pvLookup
  split <;> rfl

theorem priceFor_nil (d : ℤ) (h : ℕ) : priceFor [] d h = 3/10 := rfl

theorem hourFn_replicate {n : ℕ} {a : ℚ} {i : ℕ} (h : i < n) :
    hourFn (List.replicate n a) i = a := by
  unfold hourFn
  rw [List.getD_eq_getElem?_getD, List.getElem?_replicate]
  simp [h]

theorem map_range_const (N : ℕ) (c : ℚ) (f : ℕ → ℚ) (hf : ∀ i < N, f i = c) :
    (List.range N).map f = List.replicate N c := by
  apply List.eq_replicate.mpr
  refine ⟨by simp, ?_⟩
  intro b hb
  obtain ⟨i, hi, rfl⟩ := List.mem_map.mp hb
  exact hf i (List.mem_range.mp hi)

/-- C2 (confirmed): when the consumption store is empty (with the default
1.0 kWh fallback), the PV forecast is empty and the price table is empty,
step 1 produces exactly the fallback arrays — 1.0 kWh/h consumption, 0 PV,
0.30/kWh price for every hour — and the planner, a total function, still
returns a plan whose echoed forecast arrays are those fallback constants
and whose trajectory and charging arrays have full window length: it never
throws. -/
theorem planner_fallback_safety (nowDay : ℤ) (nowHour N : ℕ)
    (cap : ℚ) (minS maxS : ℤ) (maxp cs : ℚ) (hN : 0 < N) :
    build_forecast_arrays ⟨[], 1⟩ [] [] nowDay nowHour N
      = (List.replicate N 1, List.replicate N 0, List.replicate N (3/10)) ∧
    (planFromLists cap minS maxS maxp cs N (List.replicate N 1) (List.replicate N 0)
        (List.replicate N (3/10))).hourly_consumption = List.replicate N 1 ∧
    (planFromLists cap minS maxS maxp cs N (List.replicate N 1) (List.replicate N 0)
        (List.replicate N (3/10))).hourly_pv = List.replicate N 0 ∧
    (planFromLists cap minS maxS maxp cs N (List.replicate N 1) (List.replicate N 0)
        (List.replicate N (3/10))).hourly_prices = List.replicate N (3/10) ∧
    (planFromLists cap minS maxS maxp cs N (List.replicate N 1) (List.replicate N 0)
        (List.replicate N (3/10))).hourly_soc.length = N ∧
    (planFromLists cap minS maxS maxp cs N (List.replicate N 1) (List.replicate N 0)
        (List.replicate N (3/10))).hourly_charging.length = N := by
  refine ⟨?_, ?_, ?_, ?_, ?_, ?_⟩
  · show ((List.range N).map _, (List.range N).map _, (List.range N).map _) = _
    rw [map_range_const N 1 _ fun i _ => get_average_consumption_empty 1 _ _,
      map_range_const N 0 _ fun i _ => pvLookup_nil _,
      map_range_const N (3/10) _ fun i _ => priceFor_nil _ _]
  · show (List.range N).map (hourFn (List.replicate N 1)) = _
    exact map_range_const N 1 _ fun i hi => hourFn_replicate hi
  · show (List.range N).map (hourFn (List.replicate N 0)) = _
    exact map_range_const N 0 _ fun i hi => hourFn_replicate hi
  · show (List.range N).map (hourFn (List.replicate N (3/10))) = _
    exact map_range_const N (3/10) _ fun i hi => hourFn_replicate hi
  · show ((List.range N).map _).length = N
    simp
  · show ((List.range N).map _).length = N
    simp

/-- Witness for C2 at a concrete window (3 hours starting at hour 5). -/
theorem planner_fallback_safety_witness :
    (0 : ℕ) < 3 ∧
    build_forecast_arrays ⟨[], 1⟩ [] [] 0 5 3
      = (List.replicate 3 1, List.replicate 3 0, List.replicate 3 (3/10)) ∧
    (planFromLists 10 20 95 (39/10) 50 3 (List.replicate 3 1) (List.replicate 3 0)
        (List.replicate 3 (3/10))).hourly_consumption = List.replicate 3 1 :=
  ⟨by decide, (planner_fallback_safety 0 5 3 10 20 95 (39/10) 50 (by decide)).1,
   (planner_fallback_safety 0 5 3 10 20 95 (39/10) 50 (by decide)).2.1⟩

/-- Witness for C7 at a concrete input: the four 0.40-priced evening hours
of `cx10Input` form the single peak cluster. -/
theorem peak_identification_witness :
    (peaks cx10Input).flatten = expensiveHours cx10Input ∧
    peaks cx10Input = [[8, 9, 10, 11]] :=
  ⟨(peak_identification cx10Input).2.1, by with_unfolding_all decide⟩
